import Mathlib

/-!
Shallow embedding of `src/backend/data_processing.py` (fish-tracker pipeline):
load → mark collected → chart aggregation → map wrangling → serialization.

Modelling conventions:
* pandas cells that may be missing (NaN/NA) are `Option` values;
* `astype(str)` turns a missing value into the literal string `"nan"` (`pyStr`);
* Python string methods are modelled structurally over the character list of a
  `String` (`pyLower`, `pyStrip`, `pySlice`), mirroring `str.lower`, `str.strip`
  and slicing `s[a:b]`;
* float64 columns are modelled as exact rationals `ℚ`; IEEE NaN is modelled by
  `none` in `Option ℚ`, with NaN-propagating arithmetic (`oadd`, `osub`, `omul`,
  `odiv`).  `odiv` returns `none` when the divisor is zero — on every state the
  pipeline reaches, a zero divisor forces a zero dividend, so this coincides
  with float64's `0/0 = NaN`;
* the in-place column mutation done by `map_wrangling` is made explicit by
  returning the mutated release table (`map_wrangling_mut`).
-/

namespace FishTracker

/-! ### Python string primitives -/

/-- Python `str.lower()` (characterwise lowercasing). -/
def pyLower (s : String) : String := ⟨s.data.map Char.toLower⟩

/-- Python `str.strip()` (remove leading and trailing whitespace). -/
def pyStrip (s : String) : String :=
  ⟨((s.data.dropWhile Char.isWhitespace).reverse.dropWhile Char.isWhitespace).reverse⟩

/-- Python slicing `s[a:b]` (clamped to the string, `b` past-the-end allowed). -/
def pySlice (s : String) (a b : Nat) : String := ⟨(s.data.drop a).take (b - a)⟩

/-- pandas `astype(str)` on a possibly missing cell: NaN prints as `"nan"`. -/
def pyStr : Option String → String
  | none => "nan"
  | some s => s

/-- The normalization chain `astype(str).str.lower().str.strip()`. -/
def normCode (o : Option String) : String := pyStrip (pyLower (pyStr o))

/-! ### Data model (`fishPos` CSV row, `Release` and `Collection` sheet rows) -/

/-- A row of `data/fishPos_20190604.csv` restricted to the loaded columns
`Date_time, Tag_code, X, Y, Z, MSE`; `Tag_code` is read with pandas `string`
dtype, so a missing cell is NA (`none`). -/
structure PositionFix where
  date_time : String
  tag_code : Option String
  x : ℚ
  y : ℚ
  z : ℚ
  mse : ℚ
deriving DecidableEq

/-- A row of the `Release` sheet restricted to
`Tag Code, Acoustic Tag, Species Name`. -/
structure ReleaseRecord where
  tag_code : Option String
  acoustic_tag : Option String
  species_name : Option String
deriving DecidableEq

/-- A row of the `Collection` sheet restricted to `Tag Code, Site Name`. -/
structure CollectionRecord where
  tag_code : Option String
  site_name : Option String
deriving DecidableEq

/-- A release row with the derived `Collected` boolean column attached. -/
structure MarkedRelease where
  tag_code : Option String
  acoustic_tag : Option String
  species_name : Option String
  collected : Bool
deriving DecidableEq

/-! ### Collection marker
`collected = collection_data[collection_data["Site Name"] == "Final Collection Point "]`
`collected_fish = set(collected["Tag Code"].astype(str).str.lower().str.strip())`
`release_data["Collected"] = release_data["Tag Code"].astype(str).str.lower().str.strip().isin(collected_fish)` -/

/-- The literal terminal-site label, trailing space included. -/
def terminalSite : String := "Final Collection Point "

/-- The set of normalized tag codes seen at the terminal collection site
(modelled as a list; only membership is ever used). -/
def collectedFish (collection : List CollectionRecord) : List String :=
  (collection.filter fun c => decide (c.site_name = some terminalSite)).map
    fun c => normCode c.tag_code

/-- Attach the `Collected` column to every release row. -/
def markCollected (releases : List ReleaseRecord) (collection : List CollectionRecord) :
    List MarkedRelease :=
  releases.map fun r =>
    { tag_code := r.tag_code, acoustic_tag := r.acoustic_tag,
      species_name := r.species_name,
      collected := decide (normCode r.tag_code ∈ collectedFish collection) }

/-! ### Map-stage key normalization
`release_data["Acoustic Tag"] = release_data["Acoustic Tag"].astype(str).str.lower().str.strip()`
`fish_positions["Tag_code"] = fish_positions["Tag_code"].str[3:7].str.lower().str.strip()` -/

/-- The join key computed from a release row's acoustic tag. -/
def releaseKey (r : MarkedRelease) : String := normCode r.acoustic_tag

/-- The in-place normalization of the release table's `Acoustic Tag` column. -/
def normalizeAcoustic (release : List MarkedRelease) : List MarkedRelease :=
  release.map fun r => { r with acoustic_tag := some (releaseKey r) }

/-- The join key computed from a fix row's raw tag code: slice `[3:7]`, then
lowercase, then strip.  NA propagates (no `astype(str)` on this column). -/
def fixKey (f : PositionFix) : Option String :=
  f.tag_code.map fun s => pyStrip (pyLower (pySlice s 3 7))

/-- The inner merge
`fish_positions.merge(release_indexed, left_on="Tag_code", right_index=True, how="inner")`:
one row per (fix, release) pair with equal normalized keys, in left-table order. -/
def joinPairs : List PositionFix → List MarkedRelease → List (PositionFix × MarkedRelease)
  | [], _ => []
  | f :: fs, marked =>
      ((marked.filter fun r => decide (fixKey f = some (releaseKey r))).map fun r => (f, r))
        ++ joinPairs fs marked

/-! ### NaN-propagating float arithmetic (`none` models IEEE NaN) -/

/-- NaN-propagating addition. -/
def oadd : Option ℚ → Option ℚ → Option ℚ
  | some a, some b => some (a + b)
  | _, _ => none

/-- NaN-propagating subtraction. -/
def osub : Option ℚ → Option ℚ → Option ℚ
  | some a, some b => some (a - b)
  | _, _ => none

/-- NaN-propagating multiplication. -/
def omul : Option ℚ → Option ℚ → Option ℚ
  | some a, some b => some (a * b)
  | _, _ => none

/-- NaN-propagating division; a zero divisor yields NaN (in every state the
pipeline reaches, a zero divisor comes with a zero dividend, so this agrees
with float64's `0/0 = NaN`). -/
def odiv : Option ℚ → Option ℚ → Option ℚ
  | some a, some b => if b = 0 then none else some (a / b)
  | _, _ => none

/-- pandas `Series.min()`: `none` (NaN) on an empty column. -/
def listMin : List ℚ → Option ℚ
  | [] => none
  | x :: xs =>
      match listMin xs with
      | none => some x
      | some m => some (min x m)

/-- pandas `Series.max()`: `none` (NaN) on an empty column. -/
def listMax : List ℚ → Option ℚ
  | [] => none
  | x :: xs =>
      match listMax xs with
      | none => some x
      | some m => some (max x m)

/-! ### Rounding (`Series.round(6)`, numpy round-half-to-even) -/

/-- Round a rational to the nearest integer, ties to even (numpy rounding). -/
def roundHalfEven (x : ℚ) : ℤ :=
  if x - ⌊x⌋ < 1 / 2 then ⌊x⌋
  else if 1 / 2 < x - ⌊x⌋ then ⌊x⌋ + 1
  else if Even ⌊x⌋ then ⌊x⌋ else ⌊x⌋ + 1

/-- Python `round(·, 6)`: round to 6 decimal places. -/
def pyRound6 (q : ℚ) : ℚ := (roundHalfEven (q * 1000000) : ℚ) / 1000000

/-! ### Map wrangler -/

/-- Bounding-box constants of `map_wrangling` (`scale_lat, scale_lon = 0.0015, 0.0015`). -/
def scale_lat : ℚ := 0.0015

/-- Longitude scale constant. -/
def scale_lon : ℚ := 0.0015

/-- Lake center latitude (`lake_lat = 48.3107754`). -/
def lake_lat : ℚ := 48.3107754

/-- Lake center longitude (`lake_lon = -120.2785910`). -/
def lake_lon : ℚ := -120.2785910

/-- One line of the NDJSON map output, after column selection and renaming
(`Tag_code → Acoustic Tag`, `Species Name → Species_Name`, `Date_time → Date_Time`).
`lat`/`lng` are `Option ℚ` because the min-max normalization can produce NaN. -/
structure MapRecord where
  acoustic_tag : Option String
  date_time : String
  lat : Option ℚ
  lng : Option ℚ
  z : ℚ
  species_name : Option String
  collected : Bool
  mse : ℚ
deriving DecidableEq

/-- Column `X_norm` of a merged row: `(x - X.min()) / (X.max() - X.min())` over the
joined set. -/
def xnormOf (pairs : List (PositionFix × MarkedRelease)) (x : ℚ) : Option ℚ :=
  let xs := pairs.map fun p => p.1.x
  odiv (osub (some x) (listMin xs)) (osub (listMax xs) (listMin xs))

/-- Column `Y_norm` of a merged row: `(y - Y.min()) / (Y.max() - Y.min())` over the
joined set. -/
def ynormOf (pairs : List (PositionFix × MarkedRelease)) (y : ℚ) : Option ℚ :=
  let ys := pairs.map fun p => p.1.y
  odiv (osub (some y) (listMin ys)) (osub (listMax ys) (listMin ys))

/-- Latitude `lake_lat + (Y_norm - 0.5) * scale_lat`, before rounding. -/
def latRawOf (pairs : List (PositionFix × MarkedRelease)) (p : PositionFix × MarkedRelease) :
    Option ℚ :=
  oadd (some lake_lat) (omul (osub (ynormOf pairs p.1.y) (some (1 / 2))) (some scale_lat))

/-- Longitude `lake_lon + (X_norm - 0.5) * scale_lon`, before rounding. -/
def lngRawOf (pairs : List (PositionFix × MarkedRelease)) (p : PositionFix × MarkedRelease) :
    Option ℚ :=
  oadd (some lake_lon) (omul (osub (xnormOf pairs p.1.x) (some (1 / 2))) (some scale_lon))

/-- Build one output record from a merged row: column selection, renaming and
6-decimal rounding of `Lat`/`Lng`.  The output `Acoustic Tag` column holds the
(normalized, sliced) fix tag code, mutated in place before the merge. -/
def mkMapRecord (pairs : List (PositionFix × MarkedRelease))
    (p : PositionFix × MarkedRelease) : MapRecord :=
  { acoustic_tag := fixKey p.1
    date_time := p.1.date_time
    lat := (latRawOf pairs p).map pyRound6
    lng := (lngRawOf pairs p).map pyRound6
    z := p.1.z
    species_name := p.2.species_name
    collected := p.2.collected
    mse := p.1.mse }

/-- Function `map_wrangling(release_data, fish_positions)`: normalize keys, inner-join,
min-max normalize coordinates, project into the bounding box, round, and emit
one record per joined row. -/
def map_wrangling (release : List MarkedRelease) (fish_positions : List PositionFix) :
    List MapRecord :=
  let pairs := joinPairs fish_positions release
  pairs.map (mkMapRecord pairs)

/-- Variant of `map_wrangling` with its in-place mutation of the release table
`Acoustic Tag` column made explicit: returns the mutated table together with
the map output. -/
def map_wrangling_mut (release : List MarkedRelease) (fish_positions : List PositionFix) :
    List MarkedRelease × List MapRecord :=
  (normalizeAcoustic release, map_wrangling release fish_positions)

/-! ### Chart aggregator -/

/-- Lexicographic order on pandas group keys (first level, then second). -/
def keyLe {α β : Type} [LinearOrder α] [LinearOrder β] (a b : α × β) : Prop :=
  a.1 < b.1 ∨ (a.1 = b.1 ∧ a.2 ≤ b.2)

instance {α β : Type} [LinearOrder α] [LinearOrder β] :
    DecidableRel (@keyLe α β _ _) := fun a b => by
  unfold keyLe; infer_instance

instance {α β : Type} [LinearOrder α] [LinearOrder β] : IsTotal (α × β) keyLe where
  total a b := by
    rcases lt_trichotomy a.1 b.1 with h | h | h
    · exact Or.inl (Or.inl h)
    · rcases le_total a.2 b.2 with h2 | h2
      · exact Or.inl (Or.inr ⟨h, h2⟩)
      · exact Or.inr (Or.inr ⟨h.symm, h2⟩)
    · exact Or.inr (Or.inl h)

instance {α β : Type} [LinearOrder α] [LinearOrder β] : IsTrans (α × β) keyLe where
  trans a b c hab hbc := by
    rcases hab with hab | ⟨hab, hab2⟩
    · rcases hbc with hbc | ⟨hbc, _⟩
      · exact Or.inl (hab.trans hbc)
      · exact Or.inl (hbc ▸ hab)
    · rcases hbc with hbc | ⟨hbc, hbc2⟩
      · exact Or.inl (hab ▸ hbc)
      · exact Or.inr ⟨hab.trans hbc, hab2.trans hbc2⟩

/-- pandas `groupby(keys).size().reset_index(name="Count")` with the default
`sort=True`: one row per distinct key, in ascending key order, counting the
key's occurrences.  Rows whose key contains NaN are dropped by pandas before
this point (see `chart_wrangling`). -/
def groupCounts {κ : Type} [DecidableEq κ] (le : κ → κ → Prop) [DecidableRel le]
    (keys : List κ) : List (κ × ℕ) :=
  (keys.dedup.insertionSort le).map fun k => (k, keys.count k)

/-- Column `release["Has_Acoustic_Tag"] = release["Acoustic Tag"].notna()`. -/
def hasAcousticTag (r : MarkedRelease) : Bool := r.acoustic_tag.isSome

/-- Function `chart_wrangling(release_data)`: the two count tables
`(Has_Acoustic_Tag, Collected)` and `(Species Name, Collected)`.  The second
groupby drops rows with a missing species name (pandas `dropna=True` default);
the first cannot drop anything since both its keys are non-null booleans. -/
def chart_wrangling (release : List MarkedRelease) :
    List ((Bool × Bool) × ℕ) × List ((String × Bool) × ℕ) :=
  (groupCounts keyLe (release.map fun r => (hasAcousticTag r, r.collected)),
   groupCounts keyLe (release.filterMap fun r => r.species_name.map fun s => (s, r.collected)))

/-! ### Full pipeline (`parse_and_wrangle_data`) -/

/-- Function `parse_and_wrangle_data` after loading: mark collected fish, run the chart
stage first ("because map modifies data"), then the map stage, whose in-place
acoustic-tag mutation is reflected in the returned final release table. -/
def parse_and_wrangle_data (fixes : List PositionFix) (releases : List ReleaseRecord)
    (collection : List CollectionRecord) :
    (List ((Bool × Bool) × ℕ) × List ((String × Bool) × ℕ)) × List MapRecord ×
      List MarkedRelease :=
  let release_data := markCollected releases collection
  let charts := chart_wrangling release_data
  let wrangled := map_wrangling_mut release_data fixes
  (charts, wrangled.2, wrangled.1)

end FishTracker

namespace FishTracker

/-! ### Claim C1 -/

/-- C1: for every release record, the derived `Collected` flag is true iff the
record's tag code, normalized by string-conversion, lowercasing and trimming,
is a member of the set of normalized tag codes taken from collection rows whose
`Site Name` equals the literal `"Final Collection Point "` exactly. -/
theorem collected_iff_terminal (releases : List ReleaseRecord)
    (collection : List CollectionRecord) (m : MarkedRelease)
    (hm : m ∈ markCollected releases collection) :
    m.collected = true ↔ normCode m.tag_code ∈ collectedFish collection := by
  simp only [markCollected, List.mem_map] at hm
  obtain ⟨r, _, rfl⟩ := hm
  simp

/-- Witness for C1 at a concrete input: the collection row's tag code needs
trimming and lowercasing before it matches the release row's tag code. -/
theorem collected_iff_terminal_witness :
    ((⟨some "TC1", some "1234", some "Chinook", true⟩ : MarkedRelease) ∈
        markCollected [⟨some "TC1", some "1234", some "Chinook"⟩]
          [⟨some " tc1 ", some "Final Collection Point "⟩]) ∧
      ((⟨some "TC1", some "1234", some "Chinook", true⟩ : MarkedRelease).collected = true ↔
        normCode (⟨some "TC1", some "1234", some "Chinook", true⟩ : MarkedRelease).tag_code ∈
          collectedFish [⟨some " tc1 ", some "Final Collection Point "⟩]) :=
  ⟨by decide,
    collected_iff_terminal [⟨some "TC1", some "1234", some "Chinook"⟩]
      [⟨some " tc1 ", some "Final Collection Point "⟩]
      ⟨some "TC1", some "1234", some "Chinook", true⟩ (by decide)⟩

/-! ### Claim C2 -/

/-- Modelled from the claim's wording only, for comparison with the code: the
slice of characters 4 through 7 (0-indexed, 4 characters) of a raw tag code. -/
def sliceSpecC2 (s : String) : String := ⟨(s.data.drop 4).take 4⟩

/-- Counterexample to C2 as stated: on the raw code `"ABCDEFGH"`, the code's
normalization (Python `[3:7]`, characters 3–6) yields `"defg"`, not the
claimed characters 4–7, which would yield `"efgh"`. -/
theorem fix_slice_counterexample :
    fixKey ⟨"t", some "ABCDEFGH", 0, 0, 0, 0⟩ = some "defg" ∧
      pyStrip (pyLower (sliceSpecC2 "ABCDEFGH")) = "efgh" ∧
      ("defg" : String) ≠ "efgh" := by
  refine ⟨by decide, by decide, by decide⟩

/-- C2 amended: every fix-table tag code that takes part in the join is
normalized by taking the slice of characters 3 through 6 (0-indexed, 4
characters — Python `[3:7]`) of the raw code, then lowercasing and trimming,
and this value equals the normalized release acoustic tag it is joined to. -/
theorem fix_slice_chars_3_to_6 (fixes : List PositionFix) (marked : List MarkedRelease)
    (f : PositionFix) (r : MarkedRelease) (h : (f, r) ∈ joinPairs fixes marked) :
    ∃ raw, f.tag_code = some raw ∧
      fixKey f = some (pyStrip (pyLower ⟨(raw.data.drop 3).take 4⟩)) ∧
      fixKey f = some (releaseKey r) := by
  induction fixes with
  | nil => simp [joinPairs] at h
  | cons g gs ih =>
      simp only [joinPairs, List.mem_append, List.mem_map, List.mem_filter] at h
      rcases h with ⟨r2, ⟨_, hkey⟩, heq⟩ | h
      · obtain ⟨hf, hr⟩ := Prod.mk.injEq .. ▸ heq
        cases hf
        cases hr
        rw [decide_eq_true_iff] at hkey
        cases htag : f.tag_code with
        | none => rw [fixKey, htag] at hkey; simp at hkey
        | some raw =>
            refine ⟨raw, rfl, ?_, hkey⟩
            rw [fixKey, htag]
            rfl
      · exact ih h

/-- Witness for C2 (amended) at a concrete input: the pair joining the fix
`"XXX1234"` to the release with acoustic tag `"1234"`. -/
theorem fix_slice_chars_3_to_6_witness :
    ((⟨"t", some "XXX1234", 0, 0, 0, 0⟩, ⟨some "TC1", some "1234", some "Chinook", true⟩) ∈
        joinPairs [⟨"t", some "XXX1234", 0, 0, 0, 0⟩]
          [⟨some "TC1", some "1234", some "Chinook", true⟩]) ∧
      (∃ raw, (⟨"t", some "XXX1234", 0, 0, 0, 0⟩ : PositionFix).tag_code = some raw ∧
        fixKey ⟨"t", some "XXX1234", 0, 0, 0, 0⟩ =
          some (pyStrip (pyLower ⟨(raw.data.drop 3).take 4⟩)) ∧
        fixKey ⟨"t", some "XXX1234", 0, 0, 0, 0⟩ =
          some (releaseKey ⟨some "TC1", some "1234", some "Chinook", true⟩)) :=
  ⟨by decide,
    fix_slice_chars_3_to_6 [⟨"t", some "XXX1234", 0, 0, 0, 0⟩]
      [⟨some "TC1", some "1234", some "Chinook", true⟩]
      ⟨"t", some "XXX1234", 0, 0, 0, 0⟩
      ⟨some "TC1", some "1234", some "Chinook", true⟩ (by decide)⟩

end FishTracker

namespace FishTracker

/-! ### Claim C3 -/

/-- C3: for one fix with tag code `"XXX1234"` and one release record with
acoustic tag `"1234"`, species `"Chinook"`, whose tag code appears in a
collection row at the terminal site, the pipeline emits exactly one map record,
with `Species_Name = "Chinook"` and `Collected = true`; the slice of
`"XXX1234"` used for the join is `"1234"`. -/
theorem example_pipeline_chinook :
    ((parse_and_wrangle_data
          [⟨"2019-06-04 00:00:00", some "XXX1234", 0, 0, 0, 0⟩]
          [⟨some "TC1", some "1234", some "Chinook"⟩]
          [⟨some "TC1", some "Final Collection Point "⟩]).2.1.map
        fun rec => (rec.species_name, rec.collected)) = [(some "Chinook", true)] ∧
      pySlice "XXX1234" 3 7 = "1234" := by
  exact ⟨by decide, by decide⟩

/-! ### Claim C8 -/

/-- C8: the chart aggregates are computed from the release table as marked,
before any acoustic-tag normalization; the pipeline's chart tables equal what
`chart_wrangling` alone produces on that table (i.e. running the map stage
changes nothing about them), and the in-place normalization of the acoustic-tag
column happens afterwards, leaving the final release table normalized. -/
theorem charts_before_map_mutation (fixes : List PositionFix)
    (releases : List ReleaseRecord) (collection : List CollectionRecord) :
    (parse_and_wrangle_data fixes releases collection).1 =
        chart_wrangling (markCollected releases collection) ∧
      (parse_and_wrangle_data fixes releases collection).2.2 =
        normalizeAcoustic (markCollected releases collection) :=
  ⟨rfl, rfl⟩

end FishTracker

namespace FishTracker

/-! ### Join lemmas (shared) -/

/-- Membership in the merged set: one pair per fix and release with equal
normalized keys. -/
theorem mem_joinPairs {fixes : List PositionFix} {marked : List MarkedRelease}
    {f : PositionFix} {r : MarkedRelease} :
    (f, r) ∈ joinPairs fixes marked ↔
      f ∈ fixes ∧ r ∈ marked ∧ fixKey f = some (releaseKey r) := by
  induction fixes with
  | nil => simp [joinPairs]
  | cons g gs ih =>
      simp only [joinPairs, List.mem_append, List.mem_map, List.mem_filter,
        decide_eq_true_iff, List.mem_cons, ih, Prod.mk.injEq]
      constructor
      · rintro (⟨r2, ⟨hr2, hkey⟩, hfg, hr⟩ | ⟨hf, hr, hk⟩)
        · subst hfg; subst hr; exact ⟨Or.inl rfl, hr2, hkey⟩
        · exact ⟨Or.inr hf, hr, hk⟩
      · rintro ⟨hf | hf, hr, hk⟩
        · subst hf; exact Or.inl ⟨r, ⟨hr, hk⟩, rfl, rfl⟩
        · exact Or.inr ⟨hf, hr, hk⟩

/-- The length of the merged set is the sum, over fixes, of the number of
release rows sharing the fix's normalized key. -/
theorem joinPairs_length (fixes : List PositionFix) (marked : List MarkedRelease) :
    (joinPairs fixes marked).length =
      (fixes.map fun f =>
        (marked.filter fun r => decide (fixKey f = some (releaseKey r))).length).sum := by
  induction fixes with
  | nil => rfl
  | cons g gs ih => simp [joinPairs, ih]

/-- Crude upper bound on the merged set: the full Cartesian product. -/
theorem joinPairs_length_le (fixes : List PositionFix) (marked : List MarkedRelease) :
    (joinPairs fixes marked).length ≤ fixes.length * marked.length := by
  induction fixes with
  | nil => simp [joinPairs]
  | cons g gs ih =>
      simp only [joinPairs, List.length_append, List.length_map, List.length_cons]
      calc (List.filter (fun r => decide (fixKey g = some (releaseKey r))) marked).length
            + (joinPairs gs marked).length
          ≤ marked.length + gs.length * marked.length :=
            Nat.add_le_add (List.length_filter_le _ _) ih
        _ = (gs.length + 1) * marked.length := by ring

/-! ### Claim C4 -/

/-- C4 amended: the map output has one row per (fix, release) pair with equal
normalized keys — its cardinality is the sum over fixes of the number of
matching release rows, bounded by `|fixes| * |release rows|` (not by
`min(|fixes|, |release rows with an acoustic tag|)`, which duplicate keys on
either side can exceed) — and the merged pairs are exactly the matching
(fix, release) pairs. -/
theorem map_output_cardinality (release : List MarkedRelease) (fixes : List PositionFix) :
    (map_wrangling release fixes).length =
        (fixes.map fun f =>
          (release.filter fun r => decide (fixKey f = some (releaseKey r))).length).sum ∧
      (map_wrangling release fixes).length ≤ fixes.length * release.length ∧
      ∀ f r, (f, r) ∈ joinPairs fixes release ↔
        f ∈ fixes ∧ r ∈ release ∧ fixKey f = some (releaseKey r) :=
  ⟨by rw [map_wrangling, List.length_map, joinPairs_length],
    by rw [map_wrangling, List.length_map]; exact joinPairs_length_le fixes release,
    fun f r => mem_joinPairs⟩

/-- Counterexample to C4 as stated: two fixes that both slice to `"1234"`
joined against a single release with acoustic tag `"1234"` produce two output
rows, exceeding `min(|fixes|, |release records with an acoustic tag|) = 1`. -/
theorem map_output_cardinality_counterexample :
    ¬ ((map_wrangling
          (markCollected [⟨some "T", some "1234", some "Chinook"⟩] [])
          [⟨"t1", some "XXX1234", 0, 0, 0, 0⟩, ⟨"t2", some "YYY1234", 1, 1, 0, 0⟩]).length ≤
        min ([(⟨"t1", some "XXX1234", 0, 0, 0, 0⟩ : PositionFix),
              ⟨"t2", some "YYY1234", 1, 1, 0, 0⟩].length)
          ([(⟨some "T", some "1234", some "Chinook"⟩ : ReleaseRecord)].countP
            fun r => r.acoustic_tag.isSome)) := by
  decide

end FishTracker

namespace FishTracker

/-! ### Chart lemmas (shared) -/

/-- Every key occurring in the input appears in the grouped count table, with a
positive count. -/
theorem mem_groupCounts {κ : Type} [DecidableEq κ] (le : κ → κ → Prop) [DecidableRel le]
    {keys : List κ} {k : κ} (hk : k ∈ keys) :
    (k, keys.count k) ∈ groupCounts le keys ∧ 0 < keys.count k :=
  ⟨List.mem_map.mpr ⟨k, (List.mem_insertionSort le).mpr (List.mem_dedup.mpr hk), rfl⟩,
    List.count_pos_iff.mpr hk⟩

/-! ### Claim C5 -/

/-- C5 amended: a release record whose acoustic tag is missing is keyed by the
string `"nan"` (via `astype(str)`), so it contributes a merged row iff some
fix's sliced, normalized tag code equals `"nan"` — not never.  Such a record is
always counted by the `(Has_Acoustic_Tag, Collected)` chart, and by the
`(Species Name, Collected)` chart whenever its species name is non-null
(pandas drops null-species rows from that groupby). -/
theorem null_acoustic_tag_behavior (fixes : List PositionFix) (releases : List ReleaseRecord)
    (collection : List CollectionRecord) (m : MarkedRelease)
    (hm : m ∈ markCollected releases collection) (hnull : m.acoustic_tag = none) :
    ((∃ f, f ∈ fixes ∧ (f, m) ∈ joinPairs fixes (markCollected releases collection)) ↔
        (∃ f, f ∈ fixes ∧ fixKey f = some "nan")) ∧
      (∃ row, row ∈ (chart_wrangling (markCollected releases collection)).1 ∧
        row.1 = (false, m.collected) ∧ 0 < row.2) ∧
      (∀ s, m.species_name = some s →
        ∃ row, row ∈ (chart_wrangling (markCollected releases collection)).2 ∧
          row.1 = (s, m.collected) ∧ 0 < row.2) := by
  have hkey : releaseKey m = "nan" := by rw [releaseKey, hnull]; decide
  refine ⟨⟨?_, ?_⟩, ?_, ?_⟩
  · rintro ⟨f, hf, hmem⟩
    exact ⟨f, hf, by rw [(mem_joinPairs.mp hmem).2.2, hkey]⟩
  · rintro ⟨f, hf, hfk⟩
    exact ⟨f, hf, mem_joinPairs.mpr ⟨hf, hm, by rw [hfk, hkey]⟩⟩
  · have hk : (false, m.collected) ∈
        (markCollected releases collection).map fun r => (hasAcousticTag r, r.collected) :=
      List.mem_map.mpr ⟨m, hm, by rw [hasAcousticTag, hnull]; rfl⟩
    obtain ⟨hmem, hpos⟩ := mem_groupCounts keyLe hk
    exact ⟨_, hmem, rfl, hpos⟩
  · intro s hs
    have hk : (s, m.collected) ∈
        (markCollected releases collection).filterMap
          fun r => r.species_name.map fun t => (t, r.collected) :=
      List.mem_filterMap.mpr ⟨m, hm, by rw [hs]; rfl⟩
    obtain ⟨hmem, hpos⟩ := mem_groupCounts keyLe hk
    exact ⟨_, hmem, rfl, hpos⟩

/-- Witness for C5 (amended) at a concrete input: one release with a missing
acoustic tag and one fix whose tag code slices to `"nan"`. -/
theorem null_acoustic_tag_behavior_witness :
    ((⟨some "T", none, some "Coho", false⟩ : MarkedRelease) ∈
        markCollected [⟨some "T", none, some "Coho"⟩] []) ∧
      ((⟨some "T", none, some "Coho", false⟩ : MarkedRelease).acoustic_tag = none) ∧
      (((∃ f, f ∈ [(⟨"t", some "abcnan", 0, 0, 0, 0⟩ : PositionFix)] ∧
          (f, (⟨some "T", none, some "Coho", false⟩ : MarkedRelease)) ∈
            joinPairs [⟨"t", some "abcnan", 0, 0, 0, 0⟩]
              (markCollected [⟨some "T", none, some "Coho"⟩] [])) ↔
        (∃ f, f ∈ [(⟨"t", some "abcnan", 0, 0, 0, 0⟩ : PositionFix)] ∧
          fixKey f = some "nan")) ∧
      (∃ row, row ∈ (chart_wrangling (markCollected [⟨some "T", none, some "Coho"⟩] [])).1 ∧
        row.1 = (false, (⟨some "T", none, some "Coho", false⟩ : MarkedRelease).collected) ∧
        0 < row.2) ∧
      (∀ s, (⟨some "T", none, some "Coho", false⟩ : MarkedRelease).species_name = some s →
        ∃ row, row ∈ (chart_wrangling (markCollected [⟨some "T", none, some "Coho"⟩] [])).2 ∧
          row.1 = (s, (⟨some "T", none, some "Coho", false⟩ : MarkedRelease).collected) ∧
          0 < row.2)) :=
  ⟨by decide, rfl,
    null_acoustic_tag_behavior [⟨"t", some "abcnan", 0, 0, 0, 0⟩]
      [⟨some "T", none, some "Coho"⟩] [] ⟨some "T", none, some "Coho", false⟩
      (by decide) rfl⟩

/-- Counterexample to C5 as stated: the only release record has a missing
acoustic tag, yet the map output contains a row carrying its species and
collected fields, because the fix tag code `"abcnan"` slices to `"nan"` and
matches the `astype(str)`-converted missing tag. -/
theorem null_acoustic_contributes_counterexample :
    ((markCollected [⟨some "T", none, some "Coho"⟩] []).map fun m => m.acoustic_tag) =
        [none] ∧
      ((map_wrangling (markCollected [⟨some "T", none, some "Coho"⟩] [])
          [⟨"t", some "abcnan", 0, 0, 0, 0⟩]).map
        fun rec => (rec.species_name, rec.collected)) = [(some "Coho", false)] := by
  exact ⟨by decide, by decide⟩

end FishTracker

namespace FishTracker

/-- The counts in a grouped count table sum to the number of input keys. -/
theorem groupCounts_sum {κ : Type} [DecidableEq κ] (le : κ → κ → Prop) [DecidableRel le]
    (keys : List κ) :
    ((groupCounts le keys).map fun row => row.2).sum = keys.length := by
  unfold groupCounts
  rw [List.map_map]
  have hperm : List.Perm (keys.dedup.insertionSort le) keys.dedup :=
    List.perm_insertionSort le keys.dedup
  have hsum := (hperm.map fun k => keys.count k).sum_eq
  calc (List.map ((fun row => row.2) ∘ fun k => (k, keys.count k))
          (keys.dedup.insertionSort le)).sum
      = (List.map (fun k => keys.count k) (keys.dedup.insertionSort le)).sum := rfl
    _ = (List.map (fun k => keys.count k) keys.dedup).sum := hsum
    _ = keys.length := List.sum_map_count_dedup_eq_length keys

/-- The species-chart key list has one entry per release row with a non-null
species name. -/
theorem speciesKeys_length (marked : List MarkedRelease) :
    (marked.filterMap fun r => r.species_name.map fun s => (s, r.collected)).length =
      marked.countP fun r => r.species_name.isSome := by
  induction marked with
  | nil => rfl
  | cons r rs ih =>
      cases hs : r.species_name <;>
        simp [List.filterMap_cons, hs, ih, List.countP_cons]

/-! ### Claim C7 -/

/-- C7 amended: the `(Has_Acoustic_Tag, Collected)` chart counts every release
record exactly once, so its counts sum to the number of release records; the
`(Species Name, Collected)` chart counts exactly the release records with a
non-null species name (pandas groupby drops null keys), so its counts sum to
that number instead — equal to the record count only when every species name is
present. -/
theorem chart_totals (releases : List ReleaseRecord) (collection : List CollectionRecord) :
    (((chart_wrangling (markCollected releases collection)).1.map fun row => row.2).sum =
        releases.length) ∧
      (((chart_wrangling (markCollected releases collection)).2.map fun row => row.2).sum =
        releases.countP fun r => r.species_name.isSome) := by
  constructor
  · rw [chart_wrangling, groupCounts_sum, List.length_map, markCollected, List.length_map]
  · rw [chart_wrangling, groupCounts_sum, speciesKeys_length, markCollected, List.countP_map]
    rfl

/-- Counterexample to C7 as stated: a single release record with a null
species name is dropped by the species groupby, so the species chart's counts
sum to 0, not to the release record count 1. -/
theorem species_chart_sum_counterexample :
    (((chart_wrangling (markCollected [⟨some "T", some "A", none⟩] [])).2.map
        fun row => row.2).sum = 0) ∧
      ([(⟨some "T", some "A", none⟩ : ReleaseRecord)].length = 1) ∧ (0 : ℕ) ≠ 1 := by
  exact ⟨by decide, rfl, by decide⟩

/-! ### Claim C10 -/

/-- A grouped count table is sorted in ascending key order. -/
theorem groupCounts_sorted {κ : Type} [DecidableEq κ] (le : κ → κ → Prop) [DecidableRel le]
    [IsTotal κ le] [IsTrans κ le] (keys : List κ) :
    List.Sorted (fun a b => le a.1 b.1) (groupCounts le keys) :=
  List.Pairwise.map _ (fun _ _ h => h) (List.sorted_insertionSort le keys.dedup)

/-- C10: both chart tables are emitted in ascending lexicographic order of
their grouping key pairs — `(Has_Acoustic_Tag, Collected)` with `false < true`,
and `(Species Name, Collected)` by species name, then collected flag. -/
theorem charts_sorted (release : List MarkedRelease) :
    List.Sorted (fun a b => keyLe a.1 b.1) (chart_wrangling release).1 ∧
      List.Sorted (fun a b => keyLe a.1 b.1) (chart_wrangling release).2 :=
  ⟨groupCounts_sorted keyLe _, groupCounts_sorted keyLe _⟩

end FishTracker

namespace FishTracker

/-! ### Min/max lemmas (shared) -/

/-- Unfolding of `map_wrangling`: one output record per merged pair. -/
theorem map_wrangling_def (release : List MarkedRelease) (fixes : List PositionFix) :
    map_wrangling release fixes =
      (joinPairs fixes release).map (mkMapRecord (joinPairs fixes release)) := rfl

/-- A nonempty column has a minimum. -/
theorem listMin_isSome {l : List ℚ} (h : l ≠ []) : ∃ m, listMin l = some m := by
  cases l with
  | nil => exact absurd rfl h
  | cons x xs =>
      rw [listMin]
      cases listMin xs <;> exact ⟨_, rfl⟩

/-- A nonempty column has a maximum. -/
theorem listMax_isSome {l : List ℚ} (h : l ≠ []) : ∃ m, listMax l = some m := by
  cases l with
  | nil => exact absurd rfl h
  | cons x xs =>
      rw [listMax]
      cases listMax xs <;> exact ⟨_, rfl⟩

/-- The minimum is attained and bounds the column from below. -/
theorem listMin_spec {l : List ℚ} {m : ℚ} (h : listMin l = some m) :
    m ∈ l ∧ ∀ a ∈ l, m ≤ a := by
  induction l generalizing m with
  | nil => simp [listMin] at h
  | cons x xs ih =>
      cases hxs : listMin xs with
      | none =>
          have hnil : xs = [] := by
            cases xs with
            | nil => rfl
            | cons y ys =>
                rw [listMin] at hxs
                exact absurd hxs (by cases listMin ys <;> simp)
          subst hnil
          simp only [listMin] at h
          obtain rfl := Option.some.inj h
          exact ⟨List.mem_singleton.mpr rfl, by simp⟩
      | some m2 =>
          rw [listMin, hxs] at h
          injection h with h
          subst h
          obtain ⟨hmem, hle⟩ := ih hxs
          constructor
          · rcases le_total x m2 with hx | hx
            · rw [min_eq_left hx]; exact List.mem_cons_self x xs
            · rw [min_eq_right hx]; exact List.mem_cons_of_mem x hmem
          · intro a ha
            rcases List.mem_cons.mp ha with rfl | ha
            · exact min_le_left _ _
            · exact (min_le_right x m2).trans (hle a ha)

/-- The maximum is attained and bounds the column from above. -/
theorem listMax_spec {l : List ℚ} {M : ℚ} (h : listMax l = some M) :
    M ∈ l ∧ ∀ a ∈ l, a ≤ M := by
  induction l generalizing M with
  | nil => simp [listMax] at h
  | cons x xs ih =>
      cases hxs : listMax xs with
      | none =>
          have hnil : xs = [] := by
            cases xs with
            | nil => rfl
            | cons y ys =>
                rw [listMax] at hxs
                exact absurd hxs (by cases listMax ys <;> simp)
          subst hnil
          simp only [listMax] at h
          obtain rfl := Option.some.inj h
          exact ⟨List.mem_singleton.mpr rfl, by simp⟩
      | some m2 =>
          rw [listMax, hxs] at h
          injection h with h
          subst h
          obtain ⟨hmem, hle⟩ := ih hxs
          constructor
          · rcases le_total x m2 with hx | hx
            · rw [max_eq_right hx]; exact List.mem_cons_of_mem x hmem
            · rw [max_eq_left hx]; exact List.mem_cons_self x xs
          · intro a ha
            rcases List.mem_cons.mp ha with rfl | ha
            · exact le_max_left _ _
            · exact (hle a ha).trans (le_max_right x m2)

/-- Two distinct members force a strictly positive min-max range. -/
theorem listMin_lt_listMax {l : List ℚ} {a b : ℚ} (ha : a ∈ l) (hb : b ∈ l)
    (hab : a ≠ b) : ∃ m M, listMin l = some m ∧ listMax l = some M ∧ m < M := by
  have hne : l ≠ [] := by rintro rfl; simp at ha
  obtain ⟨m, hm⟩ := listMin_isSome hne
  obtain ⟨M, hM⟩ := listMax_isSome hne
  obtain ⟨_, hmle⟩ := listMin_spec hm
  obtain ⟨_, hMge⟩ := listMax_spec hM
  refine ⟨m, M, hm, hM, ?_⟩
  rcases lt_or_le m M with h | h
  · exact h
  · exact absurd
      ((le_antisymm ((hMge a ha).trans h) (hmle a ha)).trans
        (le_antisymm ((hMge b hb).trans h) (hmle b hb)).symm) hab

/-- An all-equal nonempty column has coinciding minimum and maximum. -/
theorem listMin_eq_listMax_of_allEq {l : List ℚ} (hne : l ≠ [])
    (hall : ∀ a ∈ l, ∀ b ∈ l, a = b) :
    ∃ c, listMin l = some c ∧ listMax l = some c := by
  obtain ⟨m, hm⟩ := listMin_isSome hne
  obtain ⟨M, hM⟩ := listMax_isSome hne
  exact ⟨m, hm, by rw [hM, hall M (listMax_spec hM).1 m (listMin_spec hm).1]⟩

end FishTracker

namespace FishTracker

/-! ### Claim C9 -/

/-- C9: when all X values (respectively all Y values) of the joined set are
equal, the min-max normalization divides by zero and yields NaN (`none`)
`Lng` (respectively `Lat`) values; no guard detects this, and the run takes no
error path — the output still has one record per joined row. -/
theorem degenerate_allequal_nan (release : List MarkedRelease) (fixes : List PositionFix) :
    ((joinPairs fixes release ≠ [] →
        (∀ p ∈ joinPairs fixes release, ∀ q ∈ joinPairs fixes release, p.1.x = q.1.x) →
        ∀ rec ∈ map_wrangling release fixes, rec.lng = none) ∧
      (joinPairs fixes release ≠ [] →
        (∀ p ∈ joinPairs fixes release, ∀ q ∈ joinPairs fixes release, p.1.y = q.1.y) →
        ∀ rec ∈ map_wrangling release fixes, rec.lat = none)) ∧
      (map_wrangling release fixes).length = (joinPairs fixes release).length := by
  refine ⟨⟨?_, ?_⟩, by rw [map_wrangling_def, List.length_map]⟩
  · intro hne hall rec hrec
    rw [map_wrangling_def] at hrec
    obtain ⟨p, hp, rfl⟩ := List.mem_map.mp hrec
    have hxs : (joinPairs fixes release).map (fun p => p.1.x) ≠ [] := by
      intro h
      exact hne (List.map_eq_nil_iff.mp h)
    have hallx : ∀ a ∈ (joinPairs fixes release).map (fun p => p.1.x),
        ∀ b ∈ (joinPairs fixes release).map (fun p => p.1.x), a = b := by
      intro a ha b hb
      obtain ⟨pa, hpa, rfl⟩ := List.mem_map.mp ha
      obtain ⟨pb, hpb, rfl⟩ := List.mem_map.mp hb
      exact hall pa hpa pb hpb
    obtain ⟨c, hmin, hmax⟩ := listMin_eq_listMax_of_allEq hxs hallx
    simp [mkMapRecord, lngRawOf, xnormOf, hmin, hmax, osub, odiv, omul, oadd, sub_self]
  · intro hne hall rec hrec
    rw [map_wrangling_def] at hrec
    obtain ⟨p, hp, rfl⟩ := List.mem_map.mp hrec
    have hys : (joinPairs fixes release).map (fun p => p.1.y) ≠ [] := by
      intro h
      exact hne (List.map_eq_nil_iff.mp h)
    have hally : ∀ a ∈ (joinPairs fixes release).map (fun p => p.1.y),
        ∀ b ∈ (joinPairs fixes release).map (fun p => p.1.y), a = b := by
      intro a ha b hb
      obtain ⟨pa, hpa, rfl⟩ := List.mem_map.mp ha
      obtain ⟨pb, hpb, rfl⟩ := List.mem_map.mp hb
      exact hall pa hpa pb hpb
    obtain ⟨c, hmin, hmax⟩ := listMin_eq_listMax_of_allEq hys hally
    simp [mkMapRecord, latRawOf, ynormOf, hmin, hmax, osub, odiv, omul, oadd, sub_self]

/-- Witness for C9 at a concrete input: a single joined row makes both
coordinate columns constant, so the emitted record has NaN `Lng`. -/
theorem degenerate_allequal_nan_witness :
    (joinPairs [⟨"t", some "XXX1234", 0, 0, 0, 0⟩]
        (markCollected [⟨some "T", some "1234", some "Chinook"⟩] []) ≠ []) ∧
      (∀ p ∈ joinPairs [⟨"t", some "XXX1234", 0, 0, 0, 0⟩]
          (markCollected [⟨some "T", some "1234", some "Chinook"⟩] []),
        ∀ q ∈ joinPairs [⟨"t", some "XXX1234", 0, 0, 0, 0⟩]
          (markCollected [⟨some "T", some "1234", some "Chinook"⟩] []),
          p.1.x = q.1.x) ∧
      (∀ rec ∈ map_wrangling (markCollected [⟨some "T", some "1234", some "Chinook"⟩] [])
          [⟨"t", some "XXX1234", 0, 0, 0, 0⟩], rec.lng = none) :=
  ⟨by decide, by decide,
    (degenerate_allequal_nan (markCollected [⟨some "T", some "1234", some "Chinook"⟩] [])
      [⟨"t", some "XXX1234", 0, 0, 0, 0⟩]).1.1 (by decide) (by decide)⟩

/-! ### Rounding and range lemmas (shared) -/

/-- Round-half-to-even moves a value by at most one half. -/
theorem roundHalfEven_bounds (x : ℚ) :
    x - 1 / 2 ≤ (roundHalfEven x : ℚ) ∧ (roundHalfEven x : ℚ) ≤ x + 1 / 2 := by
  have h1 : (⌊x⌋ : ℚ) ≤ x := Int.floor_le x
  have h2 : x < ⌊x⌋ + 1 := Int.lt_floor_add_one x
  rw [roundHalfEven]
  split_ifs with ha hb hc <;> constructor <;> push_cast <;> linarith

/-- Rounding to six decimal places moves a value by at most `5e-7`. -/
theorem pyRound6_bounds (q : ℚ) :
    q - 1 / 2000000 ≤ pyRound6 q ∧ pyRound6 q ≤ q + 1 / 2000000 := by
  obtain ⟨h1, h2⟩ := roundHalfEven_bounds (q * 1000000)
  rw [pyRound6]
  constructor
  · rw [le_div_iff₀ (by norm_num : (0:ℚ) < 1000000)]
    linarith
  · rw [div_le_iff₀ (by norm_num : (0:ℚ) < 1000000)]
    linarith

/-- Min-max normalization of an in-range value lands in the unit interval. -/
theorem div_unit_range {v m M : ℚ} (h1 : m ≤ v) (h2 : v ≤ M) (h3 : m < M) :
    0 ≤ (v - m) / (M - m) ∧ (v - m) / (M - m) ≤ 1 := by
  have hpos : (0:ℚ) < M - m := sub_pos.mpr h3
  constructor
  · exact div_nonneg (by linarith) hpos.le
  · rw [div_le_one hpos]
    linarith

/-- Affine remap of the unit interval into the bounding box. -/
theorem unit_interval_box (c s t : ℚ) (hs : 0 ≤ s) (h0 : 0 ≤ t) (h1 : t ≤ 1) :
    c - s / 2 ≤ c + (t - 1 / 2) * s ∧ c + (t - 1 / 2) * s ≤ c + s / 2 := by
  constructor <;> nlinarith

end FishTracker

namespace FishTracker

/-! ### Claim C6 -/

/-- C6 amended: with non-degenerate X and Y ranges over the joined set, the
unrounded `Lat`/`Lng` of every output row lie exactly in
`[center - scale/2, center + scale/2]`; the emitted (6-decimal-rounded) values
lie in that interval widened by `1/2 * 10^-6` on each side — rounding can push
`Lat` below `center - scale/2`, since that bound is not a 6-decimal value. -/
theorem latlng_bounds (release : List MarkedRelease) (fixes : List PositionFix)
    (hx : ∃ p ∈ joinPairs fixes release, ∃ q ∈ joinPairs fixes release, p.1.x ≠ q.1.x)
    (hy : ∃ p ∈ joinPairs fixes release, ∃ q ∈ joinPairs fixes release, p.1.y ≠ q.1.y) :
    ∀ rec ∈ map_wrangling release fixes,
      ∃ u v, rec.lat = some (pyRound6 u) ∧ rec.lng = some (pyRound6 v) ∧
        lake_lat - scale_lat / 2 ≤ u ∧ u ≤ lake_lat + scale_lat / 2 ∧
        lake_lon - scale_lon / 2 ≤ v ∧ v ≤ lake_lon + scale_lon / 2 ∧
        lake_lat - scale_lat / 2 - 1 / 2000000 ≤ pyRound6 u ∧
        pyRound6 u ≤ lake_lat + scale_lat / 2 + 1 / 2000000 ∧
        lake_lon - scale_lon / 2 - 1 / 2000000 ≤ pyRound6 v ∧
        pyRound6 v ≤ lake_lon + scale_lon / 2 + 1 / 2000000 := by
  obtain ⟨p1, hp1, p2, hp2, hxne⟩ := hx
  obtain ⟨q1, hq1, q2, hq2, hyne⟩ := hy
  obtain ⟨xm, xM, hxmin, hxmax, hxlt⟩ :=
    listMin_lt_listMax (l := (joinPairs fixes release).map fun p => p.1.x)
      (List.mem_map_of_mem _ hp1) (List.mem_map_of_mem _ hp2) hxne
  obtain ⟨ym, yM, hymin, hymax, hylt⟩ :=
    listMin_lt_listMax (l := (joinPairs fixes release).map fun p => p.1.y)
      (List.mem_map_of_mem _ hq1) (List.mem_map_of_mem _ hq2) hyne
  intro rec hrec
  rw [map_wrangling_def] at hrec
  obtain ⟨p, hp, rfl⟩ := List.mem_map.mp hrec
  have hx1 : xm ≤ p.1.x :=
    (listMin_spec hxmin).2 _ (List.mem_map_of_mem _ hp)
  have hx2 : p.1.x ≤ xM :=
    (listMax_spec hxmax).2 _ (List.mem_map_of_mem _ hp)
  have hy1 : ym ≤ p.1.y :=
    (listMin_spec hymin).2 _ (List.mem_map_of_mem _ hp)
  have hy2 : p.1.y ≤ yM :=
    (listMax_spec hymax).2 _ (List.mem_map_of_mem _ hp)
  obtain ⟨hxn0, hxn1⟩ := div_unit_range hx1 hx2 hxlt
  obtain ⟨hyn0, hyn1⟩ := div_unit_range hy1 hy2 hylt
  have hlat : (mkMapRecord (joinPairs fixes release) p).lat =
      some (pyRound6 (lake_lat + ((p.1.y - ym) / (yM - ym) - 1 / 2) * scale_lat)) := by
    simp only [mkMapRecord, latRawOf, ynormOf, hymin, hymax, osub, odiv, oadd, omul]
    rw [if_neg (sub_ne_zero.mpr (ne_of_gt hylt))]
    rfl
  have hlng : (mkMapRecord (joinPairs fixes release) p).lng =
      some (pyRound6 (lake_lon + ((p.1.x - xm) / (xM - xm) - 1 / 2) * scale_lon)) := by
    simp only [mkMapRecord, lngRawOf, xnormOf, hxmin, hxmax, osub, odiv, oadd, omul]
    rw [if_neg (sub_ne_zero.mpr (ne_of_gt hxlt))]
    rfl
  have hslat : (0:ℚ) ≤ scale_lat := by norm_num [scale_lat]
  have hslon : (0:ℚ) ≤ scale_lon := by norm_num [scale_lon]
  obtain ⟨hu1, hu2⟩ :=
    unit_interval_box lake_lat scale_lat ((p.1.y - ym) / (yM - ym)) hslat hyn0 hyn1
  obtain ⟨hv1, hv2⟩ :=
    unit_interval_box lake_lon scale_lon ((p.1.x - xm) / (xM - xm)) hslon hxn0 hxn1
  obtain ⟨hru1, hru2⟩ :=
    pyRound6_bounds (lake_lat + ((p.1.y - ym) / (yM - ym) - 1 / 2) * scale_lat)
  obtain ⟨hrv1, hrv2⟩ :=
    pyRound6_bounds (lake_lon + ((p.1.x - xm) / (xM - xm) - 1 / 2) * scale_lon)
  exact ⟨_, _, hlat, hlng, hu1, hu2, hv1, hv2,
    by linarith, by linarith, by linarith, by linarith⟩

end FishTracker

namespace FishTracker

/-- Witness for C6 (amended) at a concrete input with two joined rows whose
X and Y ranges are non-degenerate. -/
theorem latlng_bounds_witness :
    (∃ p ∈ joinPairs
        [⟨"t1", some "XXX1234", 0, 0, 0, 0⟩, ⟨"t2", some "YYY1234", 1, 1, 0, 0⟩]
        (markCollected [⟨some "T", some "1234", some "Chinook"⟩] []),
      ∃ q ∈ joinPairs
        [⟨"t1", some "XXX1234", 0, 0, 0, 0⟩, ⟨"t2", some "YYY1234", 1, 1, 0, 0⟩]
        (markCollected [⟨some "T", some "1234", some "Chinook"⟩] []), p.1.x ≠ q.1.x) ∧
      (∃ p ∈ joinPairs
          [⟨"t1", some "XXX1234", 0, 0, 0, 0⟩, ⟨"t2", some "YYY1234", 1, 1, 0, 0⟩]
          (markCollected [⟨some "T", some "1234", some "Chinook"⟩] []),
        ∃ q ∈ joinPairs
          [⟨"t1", some "XXX1234", 0, 0, 0, 0⟩, ⟨"t2", some "YYY1234", 1, 1, 0, 0⟩]
          (markCollected [⟨some "T", some "1234", some "Chinook"⟩] []), p.1.y ≠ q.1.y) ∧
      (∀ rec ∈ map_wrangling (markCollected [⟨some "T", some "1234", some "Chinook"⟩] [])
          [⟨"t1", some "XXX1234", 0, 0, 0, 0⟩, ⟨"t2", some "YYY1234", 1, 1, 0, 0⟩],
        ∃ u v, rec.lat = some (pyRound6 u) ∧ rec.lng = some (pyRound6 v) ∧
          lake_lat - scale_lat / 2 ≤ u ∧ u ≤ lake_lat + scale_lat / 2 ∧
          lake_lon - scale_lon / 2 ≤ v ∧ v ≤ lake_lon + scale_lon / 2 ∧
          lake_lat - scale_lat / 2 - 1 / 2000000 ≤ pyRound6 u ∧
          pyRound6 u ≤ lake_lat + scale_lat / 2 + 1 / 2000000 ∧
          lake_lon - scale_lon / 2 - 1 / 2000000 ≤ pyRound6 v ∧
          pyRound6 v ≤ lake_lon + scale_lon / 2 + 1 / 2000000) :=
  ⟨by decide, by decide,
    latlng_bounds (markCollected [⟨some "T", some "1234", some "Chinook"⟩] [])
      [⟨"t1", some "XXX1234", 0, 0, 0, 0⟩, ⟨"t2", some "YYY1234", 1, 1, 0, 0⟩]
      (by decide) (by decide)⟩

/-- Evaluation of the rounded minimum latitude: `round(48.3100254, 6)` falls
to `48.310025`, strictly below `lake_lat - scale_lat / 2 = 48.3100254`. -/
theorem pyRound6_min_lat : pyRound6 (483100254 / 10000000) = 48310025 / 1000000 := by
  have hfl : ⌊(483100254 / 10000000 : ℚ) * 1000000⌋ = 48310025 := by
    norm_num [Int.floor_eq_iff]
  unfold pyRound6 roundHalfEven
  rw [hfl]
  rw [if_pos (by norm_num)]
  norm_num

/-- Counterexample to C6 as stated: on a non-degenerate two-row input, the
first output row has `Y_norm = 0`, so its unrounded `Lat` is exactly
`lake_lat - scale_lat / 2 = 48.3100254`, and 6-decimal rounding emits
`48.310025`, strictly below the claimed lower bound. -/
theorem latlng_rounding_counterexample :
    ((map_wrangling (markCollected [⟨some "T", some "1234", some "Chinook"⟩] [])
          [⟨"t1", some "XXX1234", 0, 0, 0, 0⟩, ⟨"t2", some "YYY1234", 1, 1, 0, 0⟩]).map
        fun rec => rec.lat).head? = some (some (48310025 / 1000000)) ∧
      (48310025 / 1000000 : ℚ) < lake_lat - scale_lat / 2 := by
  constructor
  · have hpairs : joinPairs
        [⟨"t1", some "XXX1234", 0, 0, 0, 0⟩, ⟨"t2", some "YYY1234", 1, 1, 0, 0⟩]
        (markCollected [⟨some "T", some "1234", some "Chinook"⟩] []) =
        [(⟨"t1", some "XXX1234", 0, 0, 0, 0⟩, ⟨some "T", some "1234", some "Chinook", false⟩),
         (⟨"t2", some "YYY1234", 1, 1, 0, 0⟩, ⟨some "T", some "1234", some "Chinook", false⟩)] := by
      decide
    rw [map_wrangling_def, hpairs]
    show some (mkMapRecord _ _).lat = _
    have hlat : (mkMapRecord
        [(⟨"t1", some "XXX1234", 0, 0, 0, 0⟩, ⟨some "T", some "1234", some "Chinook", false⟩),
         (⟨"t2", some "YYY1234", 1, 1, 0, 0⟩, ⟨some "T", some "1234", some "Chinook", false⟩)]
        (⟨"t1", some "XXX1234", 0, 0, 0, 0⟩, ⟨some "T", some "1234", some "Chinook", false⟩)).lat =
        some (pyRound6 (483100254 / 10000000)) := by
      simp only [mkMapRecord, latRawOf, ynormOf, List.map_cons, List.map_nil]
      norm_num [listMin, listMax, min_def, max_def, osub, odiv, oadd, omul, lake_lat, scale_lat]
    rw [hlat, pyRound6_min_lat]
  · norm_num [lake_lat, scale_lat]

end FishTracker
